import Mathlib

/-!
Verification of the dotenv_rs configuration loader.

The development shallowly embeds the crate's core operations:
`Iter::load`, `Iter::get_vars_base` and its wrappers (src/iter.rs), the
loader facade functions (src/lib.rs), the once-only ambient accessors
`var` / `vars`, and — modelled from the specification where the
corresponding source files are not available — the line parser with its
substitution cache and the ascending file finder.

The process environment is modelled as a partial map from variable names
to string values; `env::set_var` becomes a functional update, and
`env::var(k).is_err()` becomes "the map is undefined at k".  The lazy
iterator of parse results is modelled as the list of items it yields:
each item is either a parsed (key, value) pair or an error, exactly the
`Result<(String, String)>` elements produced by `Iter::next`.
-/

namespace Dotenv

/-- Error kinds of the crate (spec §7: `IoError`, `LineParseError`,
`NotFound`, `EnvVarUnreadable`; errors.rs itself is not in the sources). -/
inductive Error where
  | ioError : Error
  | lineParse : String → Error
  | notFoundError : Error
  | envVarError : Error
deriving DecidableEq

/-- The process environment: a partial map from names to values. -/
def Env : Type := String → Option String

/-- Functional update, the model of `env::set_var`. -/
def setVar (env : Env) (k v : String) : Env :=
  fun k' => if k' = k then some v else env k'

/-- One element yielded by `Iter::next`: a parsed pair or an error. -/
def Item : Type := Except Error (String × String)

/-- Model of Rust's `str::starts_with`: raw byte/char prefix test,
no case folding, no trimming. -/
def starts_with (key pre : String) : Bool :=
  pre.data.isPrefixOf key.data

/-- Model of `Iter::load` (src/iter.rs lines 22–32): walk the items in
order; propagate the first error; for an ok pair whose key starts with
the prefix, set the variable only when the environment does not already
define it.  Returns the result together with the final environment. -/
def load : List Item → String → Env → Except Error Unit × Env
  | [], _, env => (.ok (), env)
  | .error e :: _, _, env => (.error e, env)
  | .ok (k, v) :: rest, pre, env =>
    if starts_with k pre then
      if (env k).isNone then load rest pre (setVar env k v)
      else load rest pre env
    else load rest pre env

/-- The result mapping built by `get_vars_base`: the model of
`HashMap<String, Option<String>>`. -/
def VarMap : Type := String → Option (Option String)

/-- Model of `HashMap::insert`. -/
def mapInsert (m : VarMap) (k : String) (v : Option String) : VarMap :=
  fun k' => if k' = k then some v else m k'

/-- The empty result mapping. -/
def emptyMap : VarMap := fun _ => none

/-- The loop of `Iter::get_vars_base` with its accumulating map. -/
def get_vars_go : List Item → String → VarMap → Except Error VarMap
  | [], _, acc => .ok acc
  | .error e :: _, _, _ => .error e
  | .ok (k, v) :: rest, pre, acc =>
    if starts_with k pre then get_vars_go rest pre (mapInsert acc k (some v))
    else get_vars_go rest pre acc

/-- Model of `Iter::get_vars_base` (src/iter.rs lines 34–44). -/
def get_vars_base (items : List Item) (pre : String) : Except Error VarMap :=
  get_vars_go items pre emptyMap

/-- Model of `Iter::get_vars_with_prefix` (src/iter.rs lines 46–48). -/
def get_vars_with_prefix (items : List Item) (pre : String) : Except Error VarMap :=
  get_vars_base items pre

/-- Model of `Iter::get_vars` (src/iter.rs lines 50–52). -/
def get_vars (items : List Item) : Except Error VarMap :=
  get_vars_base items ("")

/-- Lookup in a collect result: `none` when the collect failed or the
key is absent from the mapping. -/
def resAt (r : Except Error VarMap) (k : String) : Option (Option String) :=
  match r with
  | .error _ => none
  | .ok m => m k

/-- The pure collect over already-parsed pairs (what `get_vars_go`
computes on an error-free item list). -/
def collectPure : List (String × String) → String → VarMap → VarMap
  | [], _, acc => acc
  | (k, v) :: rest, pre, acc =>
    if starts_with k pre then collectPure rest pre (mapInsert acc k (some v))
    else collectPure rest pre acc

/-- The value `load` gives to key `k` when `k` is initially unset: the
first error-free pair for `k` passing the prefix filter. -/
def firstVal : List Item → String → String → Option String
  | [], _, _ => none
  | .error _ :: _, _, _ => none
  | .ok (k', v) :: rest, pre, k =>
    if k' = k ∧ starts_with k' pre then some v else firstVal rest pre k

/-- Model of `from_path` (src/lib.rs lines 81–84): the argument stands
for the outcome of opening the path — an I/O error or the list of items
the resulting `Iter` yields. -/
def from_path (file : Except Error (List Item)) (env : Env) :
    Except Error Unit × Env :=
  match file with
  | .error e => (.error e, env)
  | .ok items => load items ("") env

/-- Model of `from_path_with_prefix` (src/lib.rs lines 97–100). -/
def from_path_with_prefix (file : Except Error (List Item)) (pre : String)
    (env : Env) : Except Error Unit × Env :=
  match file with
  | .error e => (.error e, env)
  | .ok items => load items pre env

/-- Model of `from_filename` (src/lib.rs lines 138–142): the argument
stands for the outcome of `Finder::find` — an error, or the resolved
path together with the items of the `Iter` bound to the found file. -/
def from_filename (findRes : Except Error (String × List Item)) (env : Env) :
    Except Error String × Env :=
  match findRes with
  | .error e => (.error e, env)
  | .ok (path, items) =>
    match load items ("") env with
    | (.ok _, env') => (.ok path, env')
    | (.error e, env') => (.error e, env')

/-- Model of `from_filename_with_prefix` (src/lib.rs lines 159–163). -/
def from_filename_with_prefix (findRes : Except Error (String × List Item))
    (pre : String) (env : Env) : Except Error String × Env :=
  match findRes with
  | .error e => (.error e, env)
  | .ok (path, items) =>
    match load items pre env with
    | (.ok _, env') => (.ok path, env')
    | (.error e, env') => (.error e, env')

/-- Model of `dotenv` (src/lib.rs lines 198–202). -/
def dotenv (findRes : Except Error (String × List Item)) (env : Env) :
    Except Error String × Env :=
  match findRes with
  | .error e => (.error e, env)
  | .ok (path, items) =>
    match load items ("") env with
    | (.ok _, env') => (.ok path, env')
    | (.error e, env') => (.error e, env')

/-- Model of `dotenv_with_prefix` (src/lib.rs lines 212–216). -/
def dotenv_with_prefix (findRes : Except Error (String × List Item))
    (pre : String) (env : Env) : Except Error String × Env :=
  match findRes with
  | .error e => (.error e, env)
  | .ok (path, items) =>
    match load items pre env with
    | (.ok _, env') => (.ok path, env')
    | (.error e, env') => (.error e, env')

/-- Process-wide state for the ambient accessors: the environment, the
`Once` latch, and a counter of how many default-load attempts ran. -/
structure ProcState where
  env : Env
  started : Bool
  attempts : Nat

/-- Model of `START.call_once(|| { dotenv().ok(); })`: if the latch has
fired the state is untouched; otherwise `dotenv` runs once — its result
is discarded by `.ok()` but its environment effect is kept — and the
latch fires. -/
def callOnce (findRes : Except Error (String × List Item)) (s : ProcState) :
    ProcState :=
  if s.started then s
  else ⟨(dotenv findRes s.env).2, true, s.attempts + 1⟩

/-- Model of the ambient accessor `var` (src/lib.rs lines 39–44). -/
def var (findRes : Except Error (String × List Item)) (key : String)
    (s : ProcState) : Except Error String × ProcState :=
  let s' := callOnce findRes s
  (match s'.env key with
   | some v => .ok v
   | none => .error .envVarError, s')

/-- Model of the ambient accessor `vars` (src/lib.rs lines 62–67): the
returned value is the snapshot of the process environment. -/
def vars (findRes : Except Error (String × List Item)) (s : ProcState) :
    Env × ProcState :=
  let s' := callOnce findRes s
  (s'.env, s')

/-- One ambient accessor invocation. -/
inductive Call where
  | varCall : String → Call
  | varsCall : Call

/-- Run a sequence of ambient accessor calls, threading the state. -/
def runCalls (findRes : Except Error (String × List Item)) :
    List Call → ProcState → ProcState
  | [], s => s
  | .varCall k :: rest, s => runCalls findRes rest (var findRes k s).2
  | .varsCall :: rest, s => runCalls findRes rest (vars findRes s).2

/-- A fresh process: OS environment, latch not fired, no attempts. -/
def initState (osEnv : Env) : ProcState := ⟨osEnv, false, 0⟩

/-- The substitution cache (spec §3): a mapping from key to an optional
resolved value, accumulated in file order during one parse pass. -/
def Cache : Type := List (String × Option String)

/-- Cache lookup: the most recently inserted binding for the key. -/
def lookupCache (c : Cache) (k : String) : Option (Option String) :=
  (c.find? (fun p => p.1 == k)).map (fun p => p.2)

/-- Modelled from the spec: interpolation resolution (spec §4.1) —
first the substitution cache of the current pass, then the live process
environment; an unresolved name expands to the empty string. -/
def resolve (c : Cache) (env : Env) (name : String) : String :=
  match lookupCache c name with
  | some (some v) => v
  | some none => ("")
  | none => (env name).getD ("")

/-- Horizontal whitespace for line trimming (tolerating trailing CR). -/
def isSpaceChar (ch : Char) : Bool :=
  ch == ' ' || ch == '\t' || ch == '\r'

/-- Identifier-like characters allowed in keys and variable names. -/
def isKeyChar (ch : Char) : Bool :=
  ch.isAlphanum || ch == '_'

/-- Trim leading and trailing whitespace from a character list. -/
def trimChars (l : List Char) : List Char :=
  ((l.dropWhile isSpaceChar).reverse.dropWhile isSpaceChar).reverse

/-- Modelled from the spec: expansion of `$NAME` / `$\x7bNAME\x7d`
tokens inside a value (spec §4.1), resolving each name with `resolve`.
The fuel is the length of the input; every step consumes at least one
character, so the fuel never runs out on a full run. -/
def interpGo (c : Cache) (env : Env) : Nat → List Char → List Char
  | 0, _ => []
  | _ + 1, [] => []
  | fuel + 1, '$' :: rest =>
    match rest with
    | '\x7b' :: rest2 =>
      let name := rest2.takeWhile (fun ch => ch != '\x7d')
      let rest3 := (rest2.dropWhile (fun ch => ch != '\x7d')).drop 1
      (resolve c env (String.mk name)).data ++ interpGo c env fuel rest3
    | _ =>
      let name := rest.takeWhile isKeyChar
      if name.isEmpty then '$' :: interpGo c env fuel rest
      else
        (resolve c env (String.mk name)).data ++
          interpGo c env fuel (rest.drop name.length)
  | fuel + 1, ch :: rest => ch :: interpGo c env fuel rest

/-- Interpolate a whole value. -/
def interpolate (c : Cache) (env : Env) (l : List Char) : String :=
  String.mk (interpGo c env l.length l)

/-- Escape translation inside double-quoted values (spec §4.1). -/
def escChar (ch : Char) : Option Char :=
  if ch == 'n' then some '\n'
  else if ch == 't' then some '\t'
  else if ch == '\x22' then some '\x22'
  else if ch == '\x5c' then some '\x5c'
  else none

/-- Modelled from the spec: scan of a double-quoted value after the
opening quote — process backslash escapes, stop at the terminating
unescaped quote, fail on an invalid escape or a missing terminator. -/
def scanDQ : Nat → List Char → Except Unit (List Char)
  | 0, _ => .error ()
  | _ + 1, [] => .error ()
  | _ + 1, '\x22' :: _ => .ok []
  | fuel + 1, '\x5c' :: ch :: rest =>
    match escChar ch with
    | some c2 =>
      match scanDQ fuel rest with
      | .error e => .error e
      | .ok tail => .ok (c2 :: tail)
    | none => .error ()
  | fuel + 1, ch :: rest =>
    match scanDQ fuel rest with
    | .error e => .error e
    | .ok tail => .ok (ch :: tail)

/-- Strip a trailing inline comment from an unquoted value: everything
from the first unescaped `#` on is dropped (spec §4.1). -/
def stripComment : List Char → List Char
  | [] => []
  | '\x5c' :: ch :: rest => '\x5c' :: ch :: stripComment rest
  | '#' :: _ => []
  | ch :: rest => ch :: stripComment rest

/-- Drop a leading `export ` keyword before the key (spec §4.1). -/
def stripExport (l : List Char) : List Char :=
  if ('e' :: 'x' :: 'p' :: 'o' :: 'r' :: 't' :: ' ' :: []).isPrefixOf l
  then (l.drop 7).dropWhile isSpaceChar
  else l

/-- A valid key: identifier-like characters, not starting with a digit,
non-empty (spec §4.1). -/
def isValidKey : List Char → Bool
  | [] => false
  | ch :: rest => !ch.isDigit && (ch :: rest).all isKeyChar

/-- Modelled from the spec: parse of one value (spec §4.1).  Single
quotes are literal; double quotes process escapes then interpolation;
an unquoted value is stripped of its inline comment, trimmed, and —
per the order-sensitivity property of spec §8, which interpolates the
unquoted value `$\x7bA\x7d2` — interpolated as well. -/
def parseValue (env : Env) (cache : Cache) (raw : List Char) (line : String) :
    Except Error String :=
  match raw with
  | '\x27' :: rest =>
    if rest.contains '\x27'
    then .ok (String.mk (rest.takeWhile (fun ch => ch != '\x27')))
    else .error (.lineParse line)
  | '\x22' :: rest =>
    match scanDQ rest.length rest with
    | .error _ => .error (.lineParse line)
    | .ok content => .ok (interpolate cache env content)
  | _ => .ok (interpolate cache env (trimChars (stripComment raw)))

/-- Modelled from the spec: `parse::parse_line` (spec §4.1), `parse.rs`
not being among the available sources.  Takes one line and the current
substitution cache; yields nothing for a blank or comment line, a
resolved pair plus the cache extended with `key → Some(value)` on
success, and a `LineParseError` carrying the line otherwise. -/
def parse_line (env : Env) (cache : Cache) (line : String) :
    Except Error (Option (String × String) × Cache) :=
  match trimChars line.data with
  | [] => .ok (none, cache)
  | '#' :: _ => .ok (none, cache)
  | l =>
    let l2 := stripExport l
    let keyPart := l2.takeWhile (fun ch => ch != '=')
    match l2.dropWhile (fun ch => ch != '=') with
    | [] => .error (.lineParse line)
    | _ :: afterEq =>
      let key := trimChars keyPart
      if isValidKey key then
        match parseValue env cache (afterEq.dropWhile isSpaceChar) line with
        | .error e => .error e
        | .ok value =>
          let keyS := String.mk key
          .ok (some (keyS, value), (keyS, some value) :: cache)
      else .error (.lineParse line)

/-- The items `Iter::next` yields for a list of lines: each line is
parsed against the cache accumulated from the successful lines before
it; a failed line leaves the cache untouched (src/iter.rs lines 56–74
drive `parse_line` this way over the buffered reader's lines). -/
def parseLinesGo (env : Env) : List String → Cache → List Item
  | [], _ => []
  | l :: rest, cache =>
    match parse_line env cache l with
    | .ok (none, c') => parseLinesGo env rest c'
    | .ok (some kv, c') => .ok kv :: parseLinesGo env rest c'
    | .error e => .error e :: parseLinesGo env rest cache

/-- Parse a whole file, starting from the empty substitution cache. -/
def parseLines (env : Env) (lines : List String) : List Item :=
  parseLinesGo env lines []

/-- Modelled from the spec: `find.rs` (the `Finder` walking from the
starting directory toward the filesystem root) is not among the
available sources.  A directory is its list of path segments listed
deepest segment first, so the parent of `a :: rest` is `rest` and the
filesystem root is `[]`; `hasFile d` abstracts "the target filename
exists in directory `d`".  This is the ancestor chain the search
visits, nearest directory first, ending at the root. -/
def ancestors : List String → List (List String)
  | [] => [[]]
  | a :: rest => (a :: rest) :: ancestors rest

/-- Modelled from the spec: the ascending search of `Finder::find`
(spec §4.3) — check `starting_dir/filename`; if absent move to the
parent and repeat; succeed on the first match; fail when the root is
reached without a match. -/
def find (hasFile : List String → Bool) : List String → Option (List String)
  | [] => if hasFile [] then some [] else none
  | a :: rest =>
    if hasFile (a :: rest) then some (a :: rest)
    else find hasFile rest

/-- Concrete environment for witnesses: `K` is defined by the OS. -/
def osK : Env := fun k => if k = ("K") then some ("os") else none

/-- Concrete empty ambient environment for witnesses. -/
def emptyEnv : Env := fun _ => none

theorem get_vars_go_ok (pairs : List (String × String)) (pre : String) (acc : VarMap) :
    get_vars_go (pairs.map Except.ok) pre acc = .ok (collectPure pairs pre acc) := by
  induction pairs generalizing acc with
  | nil => rfl
  | cons p rest ih =>
    obtain ⟨k, v⟩ := p
    simp only [List.map_cons, get_vars_go, collectPure]
    by_cases h : starts_with k pre = true
    · simp only [h, if_true]; exact ih _
    · simp only [h, if_false]; exact ih _

theorem collectPure_lookup (pairs : List (String × String)) (pre k : String) (acc : VarMap) :
    collectPure pairs pre acc k =
      match pairs.reverse.find? (fun q => q.1 == k && starts_with q.1 pre) with
      | some q => some (some q.2)
      | none => acc k := by
  induction pairs generalizing acc with
  | nil => rfl
  | cons p rest ih =>
    obtain ⟨kp, vp⟩ := p
    simp only [collectPure, List.reverse_cons, List.find?_append]
    by_cases hpre : starts_with kp pre = true
    · simp only [hpre, if_true]
      rw [ih]
      by_cases hk : kp = k
      · subst hk
        cases hfind : rest.reverse.find? (fun q => q.1 == kp && starts_with q.1 pre) with
        | some q => simp [hfind]
        | none =>
          simp [hfind, List.find?, hpre, mapInsert]
      · cases hfind : rest.reverse.find? (fun q => q.1 == k && starts_with q.1 pre) with
        | some q => simp [hfind]
        | none =>
          have h2 : (kp == k) = false := by simp [hk]
          have h3 : ¬ k = kp := Ne.symm hk
          simp [hfind, List.find?, h2, mapInsert, h3]
    · have hpf : starts_with kp pre = false := by simpa using hpre
      simp only [hpf, Bool.false_eq_true, if_false]
      rw [ih]
      have h2 : (kp == k && starts_with kp pre) = false := by simp [hpf]
      cases hfind : rest.reverse.find? (fun q => q.1 == k && starts_with q.1 pre) with
      | some q => simp [hfind]
      | none => simp [hfind, List.find?, h2]

theorem load_char (items : List Item) (pre : String) (env : Env) (k : String) :
    (load items pre env).2 k =
      match env k with
      | some v => some v
      | none => firstVal items pre k := by
  induction items generalizing env with
  | nil => cases h : env k <;> simp [load, firstVal, h]
  | cons it rest ih =>
    cases it with
    | error e => cases h : env k <;> simp [load, firstVal, h]
    | ok p =>
      obtain ⟨k', v'⟩ := p
      simp only [load, firstVal]
      by_cases hpre : starts_with k' pre = true
      · simp only [hpre, if_true, and_true]
        cases hk : (env k') with
        | some w =>
          simp only [Option.isNone_some, Bool.false_eq_true, if_false]
          rw [ih]
          by_cases hkk : k' = k
          · subst hkk; simp [hk]
          · simp [hkk]
        | none =>
          simp only [Option.isNone_none, if_true]
          rw [ih]
          by_cases hkk : k' = k
          · subst hkk; simp [hk, setVar]
          · simp only [setVar]
            have : ¬ (k = k') := fun h => hkk h.symm
            simp [this, hkk]
      · simp only [hpre, Bool.false_eq_true, if_false, and_false]
        rw [ih]

theorem load_append_error (pairs : List (String × String)) (e : Error)
    (ys : List Item) (pre : String) (env : Env) :
    load (pairs.map Except.ok ++ Except.error e :: ys) pre env =
      (Except.error e, (load (pairs.map Except.ok) pre env).2) := by
  induction pairs generalizing env with
  | nil => rfl
  | cons p rest ih =>
    obtain ⟨k, v⟩ := p
    simp only [List.map_cons, List.cons_append, load]
    by_cases hpre : starts_with k pre = true
    · simp only [hpre, if_true]
      cases h : (env k).isNone <;> simp [ih]
    · simp only [hpre, Bool.false_eq_true, if_false]
      exact ih _

theorem get_vars_go_append_error (pairs : List (String × String)) (e : Error)
    (ys : List Item) (pre : String) (acc : VarMap) :
    get_vars_go (pairs.map Except.ok ++ Except.error e :: ys) pre acc =
      Except.error e := by
  induction pairs generalizing acc with
  | nil => rfl
  | cons p rest ih =>
    obtain ⟨k, v⟩ := p
    simp only [List.map_cons, List.cons_append, get_vars_go]
    by_cases hpre : starts_with k pre = true
    · simp only [hpre, if_true]; exact ih _
    · simp only [hpre, Bool.false_eq_true, if_false]; exact ih _

theorem callOnce_started (findRes : Except Error (String × List Item))
    (s : ProcState) (h : s.started = true) : callOnce findRes s = s := by
  simp [callOnce, h]

theorem callOnce_starts (findRes : Except Error (String × List Item))
    (s : ProcState) : (callOnce findRes s).started = true := by
  unfold callOnce
  cases h : s.started with
  | true => simp [h]
  | false => simp [h]

theorem runCalls_of_started (findRes : Except Error (String × List Item))
    (calls : List Call) (s : ProcState) (h : s.started = true) :
    runCalls findRes calls s = s := by
  induction calls with
  | nil => rfl
  | cons c rest ih =>
    cases c with
    | varCall k => simp [runCalls, var, callOnce_started _ _ h, ih]
    | varsCall => simp [runCalls, vars, callOnce_started _ _ h, ih]

theorem find_eq_ancestors (hasFile : List String → Bool) (d : List String) :
    find hasFile d = (ancestors d).find? hasFile := by
  induction d with
  | nil => cases h : hasFile [] <;> simp [find, ancestors, List.find?, h]
  | cons a rest ih =>
    cases h : hasFile (a :: rest) with
    | true => simp [find, ancestors, List.find?, h]
    | false => simp [find, ancestors, List.find?, h, ih]

/-- C1: a parsed pair processed by `Iter::load` is written into the
process environment only if the environment does not already define the
key — a key defined by the OS or by a previous set keeps its value —
and a key the environment does not define receives the first matching
file-provided value. -/
theorem claim_c1_no_overwrite (items : List Item) (pre : String) (env : Env)
    (k : String) :
    (∀ v, env k = some v → (load items pre env).2 k = some v) ∧
    (env k = none → (load items pre env).2 k = firstVal items pre k) := by
  constructor
  · intro v h; rw [load_char]; simp [h]
  · intro h; rw [load_char]; simp [h]

/-- Witness for C1 at a concrete input: the OS-provided value of `K`
survives a load that offers a file value for `K`, and the unset key `J`
takes the file-determined value. -/
theorem claim_c1_no_overwrite_witness :
    (load [Except.ok (("K"), ("file"))] ("") osK).2 ("K") = some ("os") ∧
    (load [Except.ok (("K"), ("file"))] ("") osK).2 ("J") =
      firstVal [Except.ok (("K"), ("file"))] ("") ("J") :=
  ⟨(claim_c1_no_overwrite [Except.ok (("K"), ("file"))] ("") osK ("K")).1 ("os") rfl,
   (claim_c1_no_overwrite [Except.ok (("K"), ("file"))] ("") osK ("J")).2 rfl⟩

/-- C2: with `A` unset in the ambient environment, the file `A=1` then
`B=$\x7bA\x7d2` collects to `A = 1, B = 12`, while the reversed file
collects to `A = 1` with `B`'s interpolation resolving to empty
(`B = 2`), never to `12`: interpolation resolves only against entries
observed earlier in the same pass. -/
theorem claim_c2_order_sensitivity (env : Env) (h : env ("A") = none) :
    resAt (get_vars (parseLines env [("A=1"), ("B=${A}2")])) ("A") = some (some ("1")) ∧
    resAt (get_vars (parseLines env [("A=1"), ("B=${A}2")])) ("B") = some (some ("12")) ∧
    resAt (get_vars (parseLines env [("B=${A}2"), ("A=1")])) ("A") = some (some ("1")) ∧
    resAt (get_vars (parseLines env [("B=${A}2"), ("A=1")])) ("B") = some (some ("2")) ∧
    resAt (get_vars (parseLines env [("B=${A}2"), ("A=1")])) ("B") ≠ some (some ("12")) := by
  have e1 : resAt (get_vars (parseLines env [("B=${A}2"), ("A=1")])) ("B")
      = some (some (String.mk (((env ("A")).getD ("")).data ++ ['2']))) := rfl
  refine ⟨rfl, rfl, rfl, ?_, ?_⟩
  · rw [e1, h]; rfl
  · rw [e1, h]; decide

/-- Witness for C2 at the empty ambient environment. -/
theorem claim_c2_order_sensitivity_witness :
    emptyEnv ("A") = none ∧
    (resAt (get_vars (parseLines emptyEnv [("A=1"), ("B=${A}2")])) ("A") = some (some ("1")) ∧
     resAt (get_vars (parseLines emptyEnv [("A=1"), ("B=${A}2")])) ("B") = some (some ("12")) ∧
     resAt (get_vars (parseLines emptyEnv [("B=${A}2"), ("A=1")])) ("A") = some (some ("1")) ∧
     resAt (get_vars (parseLines emptyEnv [("B=${A}2"), ("A=1")])) ("B") = some (some ("2")) ∧
     resAt (get_vars (parseLines emptyEnv [("B=${A}2"), ("A=1")])) ("B") ≠ some (some ("12"))) :=
  ⟨rfl, claim_c2_order_sensitivity emptyEnv rfl⟩

/-- C3: on an error-free item list `get_vars_base` succeeds with
exactly the mapping that sends each key passing the prefix filter to
`Some` of the value of its last occurrence in the file, and every other
key to nothing. -/
theorem claim_c3_collect_mapping (pairs : List (String × String)) (pre : String) :
    get_vars_base (pairs.map Except.ok) pre = Except.ok (collectPure pairs pre emptyMap) ∧
    ∀ k, collectPure pairs pre emptyMap k =
      match pairs.reverse.find? (fun q => q.1 == k && starts_with q.1 pre) with
      | some q => some (some q.2)
      | none => none := by
  refine ⟨get_vars_go_ok pairs pre emptyMap, fun k => ?_⟩
  rw [collectPure_lookup]
  cases pairs.reverse.find? (fun q => q.1 == k && starts_with q.1 pre) <;> rfl

/-- C4: the prefix filter is the raw, case-sensitive starts-with test —
collecting `TESTKEY` and `TestKEY` with prefix `TEST` keeps only
`TESTKEY`, the empty prefix keeps both, the test is exactly character
prefix of the raw key, and the empty prefix matches every key. -/
theorem claim_c4_prefix_filter :
    resAt (get_vars_base [Except.ok (("TESTKEY"), ("test_val")),
      Except.ok (("TestKEY"), ("test_val_prefix"))] ("TEST")) ("TESTKEY") =
      some (some ("test_val")) ∧
    resAt (get_vars_base [Except.ok (("TESTKEY"), ("test_val")),
      Except.ok (("TestKEY"), ("test_val_prefix"))] ("TEST")) ("TestKEY") = none ∧
    resAt (get_vars_base [Except.ok (("TESTKEY"), ("test_val")),
      Except.ok (("TestKEY"), ("test_val_prefix"))] ("")) ("TESTKEY") =
      some (some ("test_val")) ∧
    resAt (get_vars_base [Except.ok (("TESTKEY"), ("test_val")),
      Except.ok (("TestKEY"), ("test_val_prefix"))] ("")) ("TestKEY") =
      some (some ("test_val_prefix")) ∧
    (∀ key pre : String, starts_with key pre = true ↔ pre.data <+: key.data) ∧
    (∀ key : String, starts_with key ("") = true) := by
  refine ⟨by decide, by decide, by decide, by decide, fun key pre => ?_,
    fun key => by simp [starts_with, List.isPrefixOf]⟩
  exact List.isPrefixOf_iff_prefix

/-- C5: both `Iter::load` and `Iter::get_vars_base` return the first
error of the item sequence and process nothing after it — the result of
`load` on "ok pairs, then an error, then anything" is that error with
the environment produced by the ok pairs alone, and `get_vars_base`
returns that error. -/
theorem claim_c5_short_circuit (pairs : List (String × String)) (e : Error)
    (ys : List Item) (pre : String) (env : Env) :
    load (pairs.map Except.ok ++ Except.error e :: ys) pre env =
      (Except.error e, (load (pairs.map Except.ok) pre env).2) ∧
    get_vars_base (pairs.map Except.ok ++ Except.error e :: ys) pre =
      Except.error e :=
  ⟨load_append_error pairs e ys pre env,
   get_vars_go_append_error pairs e ys pre emptyMap⟩

/-- C6 counterexample: a load that fails on a malformed line does NOT
leave the environment unchanged — loading `A=1` followed by a parse
error from the empty environment returns the error, yet `A` is set. -/
theorem claim_c6_counterexample :
    (load [Except.ok (("A"), ("1")), Except.error (Error.lineParse ("bad"))]
      ("") emptyEnv).1 = Except.error (Error.lineParse ("bad")) ∧
    (load [Except.ok (("A"), ("1")), Except.error (Error.lineParse ("bad"))]
      ("") emptyEnv).2 ("A") = some ("1") ∧
    emptyEnv ("A") = none :=
  ⟨rfl, rfl, rfl⟩

/-- C6 (amended): the whole load fails on the first bad line — the
returned result is that line's parse error and no later item is
processed — but the load is not rolled back: a key merged from a
well-formed line preceding the bad one remains set. -/
theorem claim_c6_amended (pairs : List (String × String)) (e : Error)
    (ys : List Item) (pre : String) (env : Env) :
    (load (pairs.map Except.ok ++ Except.error e :: ys) pre env).1 = Except.error e ∧
    (∀ k v, env k = none → firstVal (pairs.map Except.ok) pre k = some v →
      (load (pairs.map Except.ok ++ Except.error e :: ys) pre env).2 k = some v) := by
  constructor
  · rw [load_append_error]
  · intro k v hk hf
    rw [load_append_error]
    change (load (pairs.map Except.ok) pre env).2 k = some v
    rw [load_char]
    simp [hk, hf]

/-- Witness for C6 (amended) at a concrete input. -/
theorem claim_c6_amended_witness :
    (load ([(("A"), ("1"))].map Except.ok ++
      Except.error (Error.lineParse ("bad")) :: []) ("") emptyEnv).1 =
      Except.error (Error.lineParse ("bad")) ∧
    (load ([(("A"), ("1"))].map Except.ok ++
      Except.error (Error.lineParse ("bad")) :: []) ("") emptyEnv).2 ("A") =
      some ("1") := by
  have h := claim_c6_amended [(("A"), ("1"))] (Error.lineParse ("bad")) [] ("") emptyEnv
  exact ⟨h.1, h.2 ("A") ("1") rfl rfl⟩

/-- C7: starting from a fresh process, any sequence of ambient accessor
calls triggers at most one default-load attempt, whatever the outcome of
that attempt; and `var` either returns the looked-up value or the
environment-lookup error, never a load, parse or not-found error. -/
theorem claim_c7_once_gate (findRes : Except Error (String × List Item))
    (osEnv : Env) (calls : List Call) (k : String) (s : ProcState) :
    (runCalls findRes calls (initState osEnv)).attempts ≤ 1 ∧
    ((∃ v, (var findRes k s).1 = Except.ok v) ∨
      (var findRes k s).1 = Except.error Error.envVarError) := by
  constructor
  · cases calls with
    | nil => exact Nat.zero_le 1
    | cons c rest =>
      cases c with
      | varCall key =>
        simp only [runCalls]
        rw [show (var findRes key (initState osEnv)).2 =
              callOnce findRes (initState osEnv) from rfl,
           runCalls_of_started _ _ _ (callOnce_starts _ _)]
        simp [callOnce, initState]
      | varsCall =>
        simp only [runCalls]
        rw [show (vars findRes (initState osEnv)).2 =
              callOnce findRes (initState osEnv) from rfl,
           runCalls_of_started _ _ _ (callOnce_starts _ _)]
        simp [callOnce, initState]
  · cases h : (callOnce findRes s).env k with
    | some v => exact Or.inl ⟨v, by simp [var, h]⟩
    | none => exact Or.inr (by simp [var, h])

/-- C8: merging the same item sequence twice is idempotent — after the
first merge, the second merge leaves the environment exactly unchanged,
because every key the first pass could set is then already defined. -/
theorem claim_c8_idempotent (items : List Item) (pre : String) (env : Env) :
    (load items pre (load items pre env).2).2 = (load items pre env).2 := by
  funext k
  rw [load_char, load_char]
  cases h : env k with
  | some v => simp
  | none => cases hf : firstVal items pre k <;> simp [hf]

/-- C9: the ascending search visits the starting directory and then
each parent up to the root, returning the first directory containing
the file, and fails exactly when no visited directory — the root
included — contains it; in particular, started from `a/b/c` with the
file only at `a`, it returns `a`, and with the file nowhere it fails. -/
theorem claim_c9_ascending_search (hasFile : List String → Bool) (d : List String) :
    find hasFile d = (ancestors d).find? hasFile ∧
    (find hasFile d = none ↔ (ancestors d).all (fun p => !hasFile p) = true) ∧
    find (fun p => p == [("a")]) [("c"), ("b"), ("a")] = some [("a")] ∧
    find (fun _ => false) [("c"), ("b"), ("a")] = none := by
  refine ⟨find_eq_ancestors hasFile d, ?_, by decide, by decide⟩
  rw [find_eq_ancestors]
  simp [List.find?_eq_none, List.all_eq_true]

/-- C10: each operation without a prefix parameter coincides with its
`_with_prefix` counterpart at the empty prefix, in result and in
environment effect. -/
theorem claim_c10_empty_prefix_equiv (file : Except Error (List Item))
    (findRes : Except Error (String × List Item)) (items : List Item)
    (env : Env) :
    dotenv findRes env = dotenv_with_prefix findRes ("") env ∧
    from_path file env = from_path_with_prefix file ("") env ∧
    from_filename findRes env = from_filename_with_prefix findRes ("") env ∧
    get_vars items = get_vars_with_prefix items ("") :=
  ⟨rfl, rfl, rfl, rfl⟩

end Dotenv
